import Mathlib

/-!
Verification of the udemy-transcript-downloader extraction pipeline
(src/index.js): the course-structure resolver, the VTT→SRT converter,
the round-robin tab scheduler, and the per-lecture transcript
extraction flow, shallowly embedded as executable Lean functions.

Strings are modelled as `List Char`; JavaScript string operations
(split, trim, padStart/padEnd, replace, includes, toLowerCase) are
embedded as structurally recursive functions with the same semantics.
-/

abbrev Str := List Char

/-- JS `String.prototype.padStart(n, c)`. -/
def padStart (n : Nat) (c : Char) (s : Str) : Str :=
  List.replicate (n - s.length) c ++ s

/-- JS `String.prototype.padEnd(n, c)`. -/
def padEnd (n : Nat) (c : Char) (s : Str) : Str :=
  s ++ List.replicate (n - s.length) c

/-- JS `String.prototype.split(sep)` for a single-character separator. -/
def splitOnChar (sep : Char) : Str → List Str
  | [] => [[]]
  | c :: rest =>
    if c = sep then
      [] :: splitOnChar sep rest
    else
      match splitOnChar sep rest with
      | [] => [[c]]
      | h :: t => (c :: h) :: t

/-- JS `String.prototype.trim()` (ASCII whitespace suffices here). -/
def jsTrim (s : Str) : Str :=
  ((s.dropWhile Char.isWhitespace).reverse.dropWhile Char.isWhitespace).reverse

/-- Rendering of a Nat in decimal, as a JS template literal does. -/
def natToChars (n : Nat) : Str :=
  Nat.toDigits 10 n

/-- JS `Array.prototype.join(sep)` for a single-character separator. -/
def joinSep (sep : Char) : List Str → Str
  | [] => []
  | [s] => s
  | s :: s2 :: rest => s ++ sep :: joinSep sep (s2 :: rest)

/-- Embeds `normalizeTimestamp` (src/index.js:324-333): split off the
fractional part at `.`, split the main part at `:`, left-pad to three
`:`-separated units with `00`, two-pad each unit, and right-pad the
fractional part (defaulting to `000` when missing or empty, as the JS
`(ms || '000')` does) to three digits. -/
def normalizeTimestamp (ts : Str) : Str :=
  let pieces := splitOnChar '.' ts
  let main := pieces.headD []
  let ms : Str :=
    match pieces.drop 1 with
    | [] => ['0', '0', '0']
    | m :: _ => if m.isEmpty then ['0', '0', '0'] else m
  let parts := splitOnChar ':' main
  let parts3 := List.replicate (3 - parts.length) ['0', '0'] ++ parts
  joinSep ':' (parts3.map (padStart 2 '0')) ++ ',' :: padEnd 3 '0' ms

/-- Strips the leading `WEBVTT` header as the regex
`/^WEBVTT(\n|\r|\r\n)?/` does: the alternation tries `\n` first, then
`\r` (so a CRLF loses only the `\r`), then gives up on the terminator. -/
def stripVttHeader (s : Str) : Str :=
  if ("WEBVTT".data).isPrefixOf s then
    match s.drop 6 with
    | '\n' :: rest => rest
    | '\r' :: rest => rest
    | rest => rest
  else s

/-- JS `String.prototype.split(/\n{2,}/)`: cut at each maximal run of
two or more newlines.  Single-pass accumulator formulation so that the
function is structurally recursive (`pending` counts newlines seen but
not yet committed to the current segment). -/
def splitBlocksAux (cur : Str) (pending : Nat) (acc : List Str) : Str → List Str
  | [] =>
    if 2 ≤ pending then acc ++ [cur, []]
    else acc ++ [cur ++ List.replicate pending '\n']
  | c :: rest =>
    if c = '\n' then
      splitBlocksAux cur (pending + 1) acc rest
    else if 2 ≤ pending then
      splitBlocksAux [c] 0 (acc ++ [cur]) rest
    else
      splitBlocksAux (cur ++ List.replicate pending '\n' ++ [c]) 0 acc rest

def splitBlocks (s : Str) : List Str :=
  splitBlocksAux [] 0 [] s

/-- JS `String.prototype.split(' --> ')`, specialised to the one
separator the converter uses so the recursion stays structural. -/
def splitOnArrow : Str → List Str
  | [] => [[]]
  | ' ' :: '-' :: '-' :: '>' :: ' ' :: rest => [] :: splitOnArrow rest
  | c :: rest =>
    match splitOnArrow rest with
    | [] => [[c]]
    | h :: t => (c :: h) :: t

/-- One SRT cue as emitted by the converter's block mapper
(src/index.js:341-346): index, the two timestamps of the header line,
and the joined text lines. -/
structure SrtCue where
  idx : Nat
  tstart : Str
  tstop : Str
  text : Str
  deriving DecidableEq

/-- Embeds the body of the converter's `.map((block, i) => ...)`
(src/index.js:341-346): blocks with fewer than two lines map to `null`
(here `none`); otherwise the cue carries index `i + 1`, the two
normalized timestamps, and the remaining lines re-joined.  A missing
`end` timestamp renders as the string `undefined`, as the JS template
literal would stringify it. -/
def blockToCue (i : Nat) (block : Str) : Option SrtCue :=
  let lines := splitOnChar '\n' (jsTrim block)
  if lines.length < 2 then none
  else
    let startEnd := lines.headD []
    let textLines := lines.drop 1
    let ps := (splitOnArrow startEnd).map normalizeTimestamp
    some { idx := i + 1
           tstart := ps.headD ("undefined".data)
           tstop := (ps.drop 1).headD ("undefined".data)
           text := joinSep '\n' textLines }

/-- Renders one cue back to the string the JS mapper returns:
`` `${i + 1}\n${start} --> ${end}\n${text}\n` ``. -/
def renderCue (c : SrtCue) : Str :=
  natToChars c.idx ++ '\n' :: (c.tstart ++ " --> ".data ++ c.tstop) ++ '\n' :: c.text ++ ['\n']

/-- The block list the converter iterates over: header stripped,
trimmed, split at blank lines (src/index.js:337-340). -/
def vttBlocks (vtt : Str) : List Str :=
  splitBlocks (jsTrim (stripVttHeader vtt))

/-- Mapping with the element's position, starting at `n`. -/
def mapIdxFrom (f : Nat → α → β) : Nat → List α → List β
  | _, [] => []
  | n, a :: t => f n a :: mapIdxFrom f (n + 1) t

/-- The cue list `convertVttToSrt` emits (the `.map(...).filter(Boolean)`
stages of src/index.js:341-348; no rendered cue string is empty, so
`filter(Boolean)` drops exactly the `null`s). -/
def cuesOf (vtt : Str) : List SrtCue :=
  (mapIdxFrom blockToCue 0 (vttBlocks vtt)).reduceOption

/-- Embeds `convertVttToSrt` (src/index.js:336-350). -/
def convertVttToSrt (vtt : Str) : Str :=
  joinSep '\n' ((cuesOf vtt).map renderCue)

/-- Tests whether `needle` occurs inside `hay`: JS
`String.prototype.includes`. -/
def hasSub (needle : Str) : Str → Bool
  | [] => needle.isEmpty
  | c :: rest => needle.isPrefixOf (c :: rest) || hasSub needle rest

/-- JS `String.prototype.toLowerCase` (ASCII suffices here). -/
def toLowerStr (s : Str) : Str :=
  s.map Char.toLower

/-- One entry of a lecture asset's `captions` array: `locale_id` and
`url` (absent `url` modelled as `none`; an empty `url` is falsy). -/
structure CaptionTrack where
  locale_id : Str
  url : Option Str
  deriving DecidableEq

/-- The caption filter `c => c.url` of src/index.js:309. -/
def captionKept (c : CaptionTrack) : Bool :=
  match c.url with
  | some u => !u.isEmpty
  | none => false

/-- The asset sub-object of a curriculum item (`asset_type` is `none`
when the JS value is not a string, mirroring the `typeof` guard). -/
structure AssetInfo where
  asset_type : Option Str
  time_estimation : Nat
  captions : Option (List CaptionTrack)
  deriving DecidableEq

/-- One raw curriculum record (`_class`, `id`, `title`, `created`,
`sort_order`, `asset`) as consumed by `processCourseStructure`. -/
structure CurriculumItem where
  cls : Str
  id : Nat
  title : Str
  created : Str
  sort_order : Int
  asset : Option AssetInfo
  deriving DecidableEq

/-- A resolved lecture (src/index.js:299-310). -/
structure LectureOut where
  id : Nat
  title : Str
  created : Str
  timeEstimation : Nat
  chapterIndex : Option Nat
  lectureIndex : Nat
  captions : Option (List CaptionTrack)
  deriving DecidableEq

/-- A resolved chapter (src/index.js:285-290). -/
structure ChapterOut where
  id : Nat
  title : Str
  index : Nat
  lectures : List LectureOut
  deriving DecidableEq

/-- The resolver output: chapters plus standalone lectures
(src/index.js:271-274). -/
structure CourseStructure where
  chapters : List ChapterOut
  lectures : List LectureOut
  deriving DecidableEq

/-- The lecture-inclusion guard of src/index.js:293-298:
`item._class === 'lecture' && item.asset &&
typeof item.asset.asset_type === 'string' &&
item.asset.asset_type.toLowerCase().includes('video')`. -/
def isVideoLectureItem (it : CurriculumItem) : Bool :=
  it.cls == "lecture".data &&
    (match it.asset with
     | some a =>
       match a.asset_type with
       | some t => hasSub ("video".data) (toLowerStr t)
       | none => false
     | none => false)

/-- Stable insertion (descending by `sort_order`) used to embed the JS
stable `sort((a, b) => b.sort_order - a.sort_order)`. -/
def insertDesc (x : CurriculumItem) : List CurriculumItem → List CurriculumItem
  | [] => [x]
  | y :: t => if x.sort_order > y.sort_order then x :: y :: t else y :: insertDesc x t

def sortBySortOrderDesc (l : List CurriculumItem) : List CurriculumItem :=
  l.foldl (fun acc x => insertDesc x acc) []

/-- The mutable locals of the resolver loop (src/index.js:279-281): the
chapters pushed so far are `done ++ current.toList`, with `current`
the chapter that further lectures are appended to. -/
structure BuildState where
  done : List ChapterOut
  current : Option ChapterOut
  standalone : List LectureOut
  chapterCounter : Nat
  lectureCounter : Nat
  deriving DecidableEq

def initBuildState : BuildState :=
  { done := [], current := none, standalone := [], chapterCounter := 1, lectureCounter := 1 }

/-- One iteration of the resolver's `forEach` (src/index.js:283-318). -/
def stepItem (st : BuildState) (it : CurriculumItem) : BuildState :=
  if it.cls == "chapter".data then
    { done := st.done ++ st.current.toList
      current := some { id := it.id, title := it.title, index := st.chapterCounter, lectures := [] }
      standalone := st.standalone
      chapterCounter := st.chapterCounter + 1
      lectureCounter := 1 }
  else if isVideoLectureItem it then
    match it.asset with
    | none => st
    | some a =>
      let lec : LectureOut :=
        { id := it.id
          title := it.title
          created := it.created
          timeEstimation := a.time_estimation
          chapterIndex := st.current.map ChapterOut.index
          lectureIndex := st.lectureCounter
          captions := a.captions.map (fun cs => cs.filter captionKept) }
      match st.current with
      | some ch =>
        { st with
            current := some { ch with lectures := ch.lectures ++ [lec] }
            lectureCounter := st.lectureCounter + 1 }
      | none =>
        { st with
            standalone := st.standalone ++ [lec]
            lectureCounter := st.lectureCounter + 1 }
  else st

/-- Embeds `processCourseStructure` (src/index.js:270-321). -/
def processCourseStructure (results : List CurriculumItem) : CourseStructure :=
  let sorted := sortBySortOrderDesc results
  let st := sorted.foldl stepItem initBuildState
  { chapters := st.done ++ st.current.toList, lectures := st.standalone }

/-- Every lecture the resolved structure contains, chapters first. -/
def allLecturesOf (cs : CourseStructure) : List LectureOut :=
  (cs.chapters.map ChapterOut.lectures).flatten ++ cs.lectures

/-! ### Scheduler: `chunkArray` (src/index.js:466-472) -/

/-- The effect of `chunks[j].push(x)` on the functional chunk list. -/
def chunkPush (chunks : List (List α)) (j : Nat) (x : α) : List (List α) :=
  chunks.set j (chunks.getD j [] ++ [x])

/-- The `arr.forEach((item, index) => chunks[index % chunkCount].push(item))`
loop, with `i` the running index. -/
def chunkArrayAux (k : Nat) : Nat → List α → List (List α) → List (List α)
  | _, [], chunks => chunks
  | i, x :: rest, chunks => chunkArrayAux k (i + 1) rest (chunkPush chunks (i % k) x)

/-- Embeds `chunkArray` (src/index.js:466-472).  (For `chunkCount = 0`
the JS code throws on a nonempty array; every claim assumes at least
one lane.) -/
def chunkArray (arr : List α) (chunkCount : Nat) : List (List α) :=
  chunkArrayAux chunkCount 0 arr (List.replicate chunkCount [])

/-! ### Per-lecture extraction flow: `processLecture` (src/index.js:492-646) -/

/-- The selector fallback chain of src/index.js:522-529. -/
def transcriptButtonSelectors : List Str :=
  ["button[data-purpose=\"transcript-toggle\"]".data,
   "[data-purpose=\"transcript-toggle\"]".data,
   "button:has-text(\"Transcript\")".data,
   ".transcript-toggle".data,
   "[aria-label*=\"transcript\" i]".data,
   "button[aria-label*=\"transcript\" i]".data]

/-- Abstraction of the page the browser automation drives: whether
navigation succeeds, which selectors find a button, whether clicking a
selector makes the transcript panel visible, and the panel text read on
the n-th extraction attempt.  A selector whose `querySelector` throws
(e.g. the non-standard `:has-text`) behaves like one that finds no
button, because the per-selector `catch` just continues the chain. -/
structure PageEnv where
  navOk : Bool
  buttonExists : Str → Bool
  panelVisibleAfterClick : Str → Bool
  panelTextRead : Nat → Str

/-- The fallback loop of src/index.js:533-569: first selector whose
button exists *and* whose click leaves the panel visible wins; any
other outcome falls through to the next selector. -/
def findWorkingSelector (env : PageEnv) : List Str → Option Str
  | [] => none
  | s :: rest =>
    if env.buttonExists s && env.panelVisibleAfterClick s then some s
    else findWorkingSelector env rest

/-- JS truthiness test `text && text.trim() !== ''` of src/index.js:594. -/
def jsTruthyNonBlank (s : Str) : Bool :=
  !s.isEmpty && !(jsTrim s).isEmpty

/-- The bounded retry loop of src/index.js:584-601 (`maxRetries = 3`,
counted here as remaining fuel): read the panel text; stop at the first
non-blank read; after exhausting the retries the last (blank) read is
kept. -/
def extractTextLoop (env : PageEnv) : Nat → Nat → Str → Str
  | 0, _, lastText => lastText
  | fuel + 1, attempt, _ =>
    let t := env.panelTextRead attempt
    if jsTruthyNonBlank t then t
    else extractTextLoop env fuel (attempt + 1) t

/-- The invalid-filename class `[/\\?%*:|"<>]` of src/index.js:499. -/
def isInvalidFilenameChar (c : Char) : Bool :=
  c = '/' || c = '\\' || c = '?' || c = '%' || c = '*' || c = ':' ||
    c = '|' || c = '"' || c = '<' || c = '>'

/-- Embeds `filename.replace(/[/\\?%*:|"<>]/g, '-')` (src/index.js:499). -/
def sanitizeFilename (s : Str) : Str :=
  s.map (fun c => if isInvalidFilenameChar c then '-' else c)

/-- The raw filename of src/index.js:494-496:
`` `${chapter.index}.${lecture.lectureIndex} ${lecture.title}` `` with a
chapter, `` `${lecture.lectureIndex}. ${lecture.title}` `` standalone. -/
def rawFilename (lecture : LectureOut) (chapter : Option ChapterOut) : Str :=
  match chapter with
  | some ch =>
    natToChars ch.index ++ ".".data ++ natToChars lecture.lectureIndex ++ " ".data ++ lecture.title
  | none => natToChars lecture.lectureIndex ++ ". ".data ++ lecture.title

/-- One file written to the output directory. -/
structure FileEntry where
  name : Str
  content : Str
  deriving DecidableEq

/-- Terminal outcome of one lecture's processing: `ok` (transcript
saved, and the optional caption step did not throw), `noTranscript`
(panel never opened, or its text stayed blank), `errored` (an exception
reached the per-lecture `catch`). -/
inductive LectureStatus
  | ok
  | noTranscript
  | errored
  deriving DecidableEq

def placeholderContent (sanitized : Str) : Str :=
  "# ".data ++ sanitized ++ "\n\n[No transcript available or could not be accessed]".data

/-- Embeds `processLecture` (src/index.js:492-646), returning the files
it writes and its terminal outcome.

* navigation failure throws and is caught at src/index.js:643: no file;
* no selector opens the panel: one placeholder `.txt` (src/index.js:571-578);
* panel open but text still blank after the three reads: no file
  (src/index.js:603-606 returns without writing);
* otherwise the transcript `.txt` is written (src/index.js:612); then,
  when SRT output was requested and the lecture has caption tracks,
  src/index.js:619 dereferences `preferredLanguage` — a variable that is
  not a parameter of `processLecture` and not otherwise in scope (the
  call at src/index.js:483 never passes it) — so a `ReferenceError` is
  raised and caught at src/index.js:643 before any `.srt` file can be
  written. -/
def processLecture (env : PageEnv) (lecture : LectureOut) (chapter : Option ChapterOut)
    (downloadSrt : Bool) : List FileEntry × LectureStatus :=
  let sanitized := sanitizeFilename (rawFilename lecture chapter)
  if !env.navOk then ([], .errored)
  else
    match findWorkingSelector env transcriptButtonSelectors with
    | none =>
      ([⟨sanitized ++ ".txt".data, placeholderContent sanitized⟩], .noTranscript)
    | some _ =>
      let transcriptText := extractTextLoop env 3 0 []
      if !jsTruthyNonBlank transcriptText then ([], .noTranscript)
      else
        let txtFile : FileEntry :=
          ⟨sanitized ++ ".txt".data, "# ".data ++ sanitized ++ "\n\n".data ++ transcriptText⟩
        if downloadSrt && (match lecture.captions with
                           | some cs => !cs.isEmpty
                           | none => false) then
          ([txtFile], .errored)
        else ([txtFile], .ok)

/-- The work-item list `allLectures` built by `downloadTranscripts` in
course-structure mode (src/index.js:455-462): chapter lectures in
order, then standalone lectures. -/
def allWorkItems (cs : CourseStructure) : List (LectureOut × Option ChapterOut) :=
  (cs.chapters.map (fun ch => ch.lectures.map (fun l => (l, some ch)))).flatten ++
    cs.lectures.map (fun l => (l, none))

/-- The files one tab writes over its chunk (src/index.js:481-484). -/
def chunkFiles (env : LectureOut → PageEnv) (downloadSrt : Bool)
    (chunk : List (LectureOut × Option ChapterOut)) : List FileEntry :=
  (chunk.map (fun it => (processLecture (env it.1) it.1 it.2 downloadSrt).1)).flatten

/-- All files a run of `downloadTranscripts` writes (src/index.js:474-488;
tabs run concurrently but write disjoint per-lecture files, so the file
list is taken in lane order). -/
def runTranscriptFiles (env : LectureOut → PageEnv) (cs : CourseStructure)
    (downloadSrt : Bool) (tabCount : Nat) : List FileEntry :=
  ((chunkArray (allWorkItems cs) tabCount).map (chunkFiles env downloadSrt)).flatten

/-! ### Scheduler lemmas -/

/-- Specification-side description of one lane: walking the items from
position `i`, keep exactly those whose position is `≡ j (mod k)`. -/
def laneSpec (k j : Nat) : Nat → List α → List α
  | _, [] => []
  | i, x :: t => if i % k = j then x :: laneSpec k j (i + 1) t else laneSpec k j (i + 1) t

theorem getD_set_self (a d : α) : ∀ (l : List α) (j : Nat), j < l.length →
    (l.set j a).getD j d = a := by
  intro l
  induction l with
  | nil => intro j h; simp at h
  | cons x t ih =>
    intro j h
    cases j with
    | zero => rfl
    | succ j => exact ih j (by simpa using h)

theorem getD_set_ne (a d : α) : ∀ (l : List α) (j j' : Nat), j ≠ j' →
    (l.set j a).getD j' d = l.getD j' d := by
  intro l
  induction l with
  | nil => intro j j' _; simp
  | cons x t ih =>
    intro j j' h
    cases j with
    | zero =>
      cases j' with
      | zero => exact absurd rfl h
      | succ j' => rfl
    | succ j =>
      cases j' with
      | zero => rfl
      | succ j' => exact ih j j' (fun he => h (by rw [he]))

theorem getD_replicate_nil (j : Nat) : ∀ (k : Nat),
    (List.replicate k ([] : List α)).getD j [] = [] := by
  induction j with
  | zero => intro k; cases k <;> rfl
  | succ j ih =>
    intro k
    cases k with
    | zero => rfl
    | succ k => exact ih k

theorem flatten_replicate_nil : ∀ (k : Nat), (List.replicate k ([] : List α)).flatten = [] := by
  intro k
  induction k with
  | zero => rfl
  | succ k ih => simp [ih]

theorem chunkArrayAux_length (k : Nat) : ∀ (arr : List α) (i : Nat) (chunks : List (List α)),
    (chunkArrayAux k i arr chunks).length = chunks.length := by
  intro arr
  induction arr with
  | nil => intro i chunks; rfl
  | cons x t ih =>
    intro i chunks
    rw [chunkArrayAux, ih]
    simp [chunkPush]

theorem getD_chunkArrayAux (k : Nat) : ∀ (arr : List α) (i : Nat) (chunks : List (List α)),
    chunks.length = k → ∀ j, j < k →
    (chunkArrayAux k i arr chunks).getD j [] = chunks.getD j [] ++ laneSpec k j i arr := by
  intro arr
  induction arr with
  | nil => intro i chunks _ j _; simp [chunkArrayAux, laneSpec]
  | cons x t ih =>
    intro i chunks hlen j hj
    rw [chunkArrayAux,
      ih (i + 1) (chunkPush chunks (i % k) x) (by simp [chunkPush, hlen]) j hj]
    by_cases hc : i % k = j
    · rw [laneSpec, if_pos hc, chunkPush, hc,
        getD_set_self _ _ _ _ (by rw [hlen]; exact hj), List.append_assoc]
      rfl
    · rw [laneSpec, if_neg hc, chunkPush, getD_set_ne _ _ _ _ _ hc]

theorem flatten_chunkPush_perm (x : α) : ∀ (chunks : List (List α)) (j : Nat),
    j < chunks.length → (chunkPush chunks j x).flatten.Perm (chunks.flatten ++ [x]) := by
  intro chunks
  induction chunks with
  | nil => intro j h; simp at h
  | cons c t ih =>
    intro j h
    cases j with
    | zero =>
      have he : chunkPush (c :: t) 0 x = (c ++ [x]) :: t := rfl
      rw [he]
      simp only [List.flatten_cons, List.append_assoc]
      exact (@List.perm_append_comm _ [x] t.flatten).append_left c
    | succ j =>
      have he : chunkPush (c :: t) (j + 1) x = c :: chunkPush t j x := rfl
      rw [he]
      simp only [List.flatten_cons, List.append_assoc]
      exact (ih j (by simpa using h)).append_left c

theorem flatten_chunkArrayAux_perm (k : Nat) (hk : 0 < k) :
    ∀ (arr : List α) (i : Nat) (chunks : List (List α)), chunks.length = k →
    (chunkArrayAux k i arr chunks).flatten.Perm (chunks.flatten ++ arr) := by
  intro arr
  induction arr with
  | nil => intro i chunks _; simp [chunkArrayAux]
  | cons x t ih =>
    intro i chunks hlen
    rw [chunkArrayAux]
    have h1 := ih (i + 1) (chunkPush chunks (i % k) x) (by simpa [chunkPush] using hlen)
    have h2 := flatten_chunkPush_perm x chunks (i % k) (by rw [hlen]; exact Nat.mod_lt _ hk)
    refine h1.trans ((h2.append_right t).trans ?_)
    rw [List.append_assoc]
    rfl

theorem laneSpec_eq_nil (k j : Nat) : ∀ (arr : List α) (i : Nat),
    (∀ m, i ≤ m → m < i + arr.length → m % k ≠ j) → laneSpec k j i arr = [] := by
  intro arr
  induction arr with
  | nil => intro i _; rfl
  | cons x t ih =>
    intro i h
    rw [laneSpec, if_neg (h i (Nat.le_refl i) (by simp))]
    exact ih (i + 1) (fun m h1 h2 => h m (by omega) (by simp; omega))

/-- C3: `chunkArray` partitions positions round-robin: it yields `k`
lanes, lane `j` holds exactly the items at positions `≡ j (mod k)` in
increasing position order, the lanes together are a permutation of the
input (every item exactly once), and 7 items over 3 lanes land at
positions {0,3,6}, {1,4}, {2,5}. -/
theorem chunkArray_round_robin {α : Type} (arr : List α) (k : Nat) (hk : 1 ≤ k) :
    (chunkArray arr k).length = k
    ∧ (∀ j, j < k → (chunkArray arr k).getD j [] = laneSpec k j 0 arr)
    ∧ (chunkArray arr k).flatten.Perm arr
    ∧ chunkArray (List.range 7) 3 = [[0, 3, 6], [1, 4], [2, 5]] := by
  refine ⟨?_, ?_, ?_, by decide⟩
  · rw [chunkArray, chunkArrayAux_length]; simp
  · intro j hj
    rw [chunkArray, getD_chunkArrayAux k arr 0 _ (by simp) j hj, getD_replicate_nil]
    rfl
  · have h := flatten_chunkArrayAux_perm k hk arr 0 (List.replicate k []) (by simp)
    rw [chunkArray]
    simpa [flatten_replicate_nil] using h

theorem chunkArray_round_robin_witness :
    (1 ≤ 3)
    ∧ ((chunkArray (List.range 7) 3).length = 3
      ∧ (∀ j, j < 3 → (chunkArray (List.range 7) 3).getD j [] = laneSpec 3 j 0 (List.range 7))
      ∧ (chunkArray (List.range 7) 3).flatten.Perm (List.range 7)
      ∧ chunkArray (List.range 7) 3 = [[0, 3, 6], [1, 4], [2, 5]]) :=
  ⟨by decide, chunkArray_round_robin (List.range 7) 3 (by decide)⟩

/-- C10: with fewer items than lanes the partition still yields exactly
`k` lanes; every lane past the item count is the empty sequence, and a
tab given an empty chunk performs no per-item work (it writes no
files). -/
theorem chunkArray_fewer_items_than_lanes {α : Type} (arr : List α) (k : Nat) (_hk : 1 ≤ k) :
    (chunkArray arr k).length = k
    ∧ (∀ j, j < k → arr.length ≤ j → (chunkArray arr k).getD j [] = [])
    ∧ (∀ env downloadSrt, chunkFiles env downloadSrt [] = []) := by
  refine ⟨?_, ?_, fun env downloadSrt => rfl⟩
  · rw [chunkArray, chunkArrayAux_length]; simp
  · intro j hj hlen
    rw [chunkArray, getD_chunkArrayAux k arr 0 _ (by simp) j hj, getD_replicate_nil,
      List.nil_append]
    exact laneSpec_eq_nil k j arr 0 (fun m _ h2 => by
      have hmk : m % k = m := Nat.mod_eq_of_lt (by omega)
      omega)

theorem chunkArray_fewer_items_than_lanes_witness :
    (1 ≤ 3)
    ∧ ((chunkArray [0] 3).length = 3
      ∧ (∀ j, j < 3 → ([0] : List Nat).length ≤ j → (chunkArray [0] 3).getD j [] = [])
      ∧ (∀ env downloadSrt, chunkFiles env downloadSrt [] = [])) :=
  ⟨by decide, chunkArray_fewer_items_than_lanes [0] 3 (by decide)⟩

/-! ### Resolver lemmas -/

theorem range1_concat (n : Nat) : List.range' 1 (n + 1) = List.range' 1 n ++ [n + 1] := by
  rw [List.range'_concat 1 n]
  congr 1
  simp [Nat.add_comm]

/-- Appending an element carrying the current counter value extends a
contiguous 1-based ordinal list by one. -/
theorem counterList_extend {X : Type} (f : X → Nat) (l : List X) (c : Nat) (x : X)
    (h1 : l.map f = List.range' 1 l.length) (h2 : c = l.length + 1) (hx : f x = c) :
    (l ++ [x]).map f = List.range' 1 (l ++ [x]).length ∧ c + 1 = (l ++ [x]).length + 1 := by
  constructor
  · rw [List.map_append, h1]
    simp only [List.map_cons, List.map_nil, List.length_append, List.length_cons,
      List.length_nil, Nat.zero_add]
    rw [hx, h2, range1_concat]
  · simp [h2]

/-- The chapters array of the resolver loop state: the pushed chapter
objects, the currently open one last (it is pushed at creation and then
mutated in place in the JS). -/
def chaptersList (st : BuildState) : List ChapterOut :=
  st.done ++ st.current.toList

/-- The resolver-loop invariant behind claim C5: chapter ordinals are
`1..n` in push order with `chapterCounter` one past them, each closed
chapter and the open chapter have lecture ordinals `1..m` with
`lectureCounter` tracking the open one (or the standalone group while
no chapter is open), and standalone ordinals are `1..m`. -/
def ordinalsOK (st : BuildState) : Prop :=
  (chaptersList st).map ChapterOut.index = List.range' 1 (chaptersList st).length
  ∧ st.chapterCounter = (chaptersList st).length + 1
  ∧ (∀ ch ∈ st.done, ch.lectures.map LectureOut.lectureIndex = List.range' 1 ch.lectures.length)
  ∧ (∀ ch, st.current = some ch →
      ch.lectures.map LectureOut.lectureIndex = List.range' 1 ch.lectures.length
      ∧ st.lectureCounter = ch.lectures.length + 1)
  ∧ st.standalone.map LectureOut.lectureIndex = List.range' 1 st.standalone.length
  ∧ (st.current = none → st.lectureCounter = st.standalone.length + 1)

theorem stepItem_ordinals (st : BuildState) (it : CurriculumItem) (h : ordinalsOK st) :
    ordinalsOK (stepItem st it) := by
  obtain ⟨sd, sc, ss, scc, slc⟩ := st
  obtain ⟨h1, h2, h3, h4, h5, h6⟩ := h
  simp only [chaptersList] at h1 h2
  rw [stepItem]
  by_cases hch : it.cls == "chapter".data
  · rw [if_pos hch]
    dsimp only
    have hext := counterList_extend ChapterOut.index (sd ++ sc.toList) scc
      { id := it.id, title := it.title, index := scc, lectures := [] } h1 h2 rfl
    refine ⟨?_, ?_, ?_, ?_, h5, ?_⟩
    · simpa [chaptersList, List.append_assoc] using hext.1
    · simpa [chaptersList, List.append_assoc] using hext.2
    · intro ch hmem
      rcases List.mem_append.mp hmem with hd | hc
      · exact h3 ch hd
      · rcases sc with _ | cur
        · simp at hc
        · simp only [Option.toList_some, List.mem_singleton] at hc
          subst hc
          exact (h4 _ rfl).1
    · intro ch hcur
      have h7 := Option.some.inj hcur
      subst h7
      exact ⟨rfl, rfl⟩
    · intro hnone
      exact absurd hnone (by simp)
  · rw [if_neg hch]
    by_cases hvid : isVideoLectureItem it
    · rw [if_pos hvid]
      rcases hasset : it.asset with _ | a
      · dsimp only
        exact ⟨by simpa [chaptersList] using h1, by simpa [chaptersList] using h2,
          h3, h4, h5, h6⟩
      · dsimp only
        rcases sc with _ | ch
        · -- no chapter open: the lecture joins the standalone group
          dsimp only
          refine ⟨?_, ?_, h3, ?_, ?_, ?_⟩
          · simpa [chaptersList] using h1
          · simpa [chaptersList] using h2
          · intro c hc
            exact absurd hc (by simp)
          · exact (counterList_extend LectureOut.lectureIndex ss slc _ h5 (h6 rfl) rfl).1
          · intro _
            exact (counterList_extend LectureOut.lectureIndex ss slc _ h5 (h6 rfl) rfl).2
        · -- open chapter: the lecture is appended to it
          dsimp only
          have hcc := h4 ch rfl
          refine ⟨?_, ?_, h3, ?_, h5, ?_⟩
          · simpa [chaptersList] using h1
          · simpa [chaptersList] using h2
          · intro c hc
            have h7 := Option.some.inj hc
            subst h7
            exact counterList_extend LectureOut.lectureIndex ch.lectures slc _ hcc.1 hcc.2 rfl
          · intro hnone
            exact absurd hnone (by simp)
    · rw [if_neg hvid]
      exact ⟨by simpa [chaptersList] using h1, by simpa [chaptersList] using h2,
        h3, h4, h5, h6⟩

theorem foldl_stepItem_ordinals : ∀ (items : List CurriculumItem) (st : BuildState),
    ordinalsOK st → ordinalsOK (items.foldl stepItem st) := by
  intro items
  induction items with
  | nil => intro st h; exact h
  | cons x t ih => intro st h; exact ih _ (stepItem_ordinals st x h)

theorem initBuildState_ordinals : ordinalsOK initBuildState := by
  refine ⟨rfl, rfl, ?_, ?_, rfl, fun _ => rfl⟩
  · intro ch hch; simp [initBuildState] at hch
  · intro ch hch; simp [initBuildState] at hch

/-- C5: for every curriculum record set, the resolved chapter ordinals
are the contiguous sequence `1..n` in iteration (sort) order, lecture
ordinals within each chapter are `1..m`, and standalone-group lecture
ordinals are `1..m` (restarting at 1). -/
theorem resolver_ordinals_contiguous (results : List CurriculumItem) :
    ((processCourseStructure results).chapters.map ChapterOut.index
      = List.range' 1 (processCourseStructure results).chapters.length)
    ∧ (∀ ch ∈ (processCourseStructure results).chapters,
        ch.lectures.map LectureOut.lectureIndex = List.range' 1 ch.lectures.length)
    ∧ ((processCourseStructure results).lectures.map LectureOut.lectureIndex
      = List.range' 1 (processCourseStructure results).lectures.length) := by
  have hinv := foldl_stepItem_ordinals (sortBySortOrderDesc results) initBuildState
    initBuildState_ordinals
  obtain ⟨h1, _, h3, h4, h5, _⟩ := hinv
  refine ⟨h1, ?_, h5⟩
  intro ch hch
  rcases List.mem_append.mp hch with hd | hc
  · exact h3 ch hd
  · rcases hcur : ((sortBySortOrderDesc results).foldl stepItem initBuildState).current
      with _ | cur
    · rw [hcur] at hc; simp at hc
    · rw [hcur] at hc
      simp only [Option.toList_some, List.mem_singleton] at hc
      subst hc
      exact (h4 ch hcur).1

/-- All lectures recorded anywhere in the resolver loop state. -/
def stateLecs (st : BuildState) : List LectureOut :=
  ((st.done ++ st.current.toList).map ChapterOut.lectures).flatten ++ st.standalone

theorem stepItem_lecture_source (st : BuildState) (it : CurriculumItem) (lec : LectureOut) :
    lec ∈ stateLecs (stepItem st it) →
    lec ∈ stateLecs st
    ∨ (isVideoLectureItem it = true ∧ lec.id = it.id ∧ lec.title = it.title) := by
  obtain ⟨sd, sc, ss, scc, slc⟩ := st
  rw [stepItem]
  by_cases hch : it.cls == "chapter".data
  · rw [if_pos hch]
    dsimp only
    intro hmem
    left
    simp only [stateLecs] at hmem ⊢
    rcases List.mem_append.mp hmem with hfl | hss
    · obtain ⟨l, hlmem, hl⟩ := List.mem_flatten.mp hfl
      obtain ⟨a, ha, hal⟩ := List.mem_map.mp hlmem
      rcases List.mem_append.mp ha with ha' | hnew
      · exact List.mem_append.mpr (Or.inl (List.mem_flatten.mpr
          ⟨l, List.mem_map.mpr ⟨a, ha', hal⟩, hl⟩))
      · simp only [Option.toList_some, List.mem_singleton] at hnew
        subst hnew
        rw [← hal] at hl
        simp at hl
    · exact List.mem_append.mpr (Or.inr hss)
  · rw [if_neg hch]
    by_cases hvid : isVideoLectureItem it
    · rw [if_pos hvid]
      rcases hasset : it.asset with _ | a
      · dsimp only
        exact fun hmem => Or.inl hmem
      · dsimp only
        rcases sc with _ | ch
        · -- the lecture joins the standalone group
          dsimp only
          intro hmem
          simp only [stateLecs] at hmem ⊢
          rcases List.mem_append.mp hmem with hfl | hss
          · exact Or.inl (List.mem_append.mpr (Or.inl hfl))
          · rcases List.mem_append.mp hss with hss' | hlec
            · exact Or.inl (List.mem_append.mpr (Or.inr hss'))
            · simp only [List.mem_singleton] at hlec
              subst hlec
              exact Or.inr ⟨hvid, rfl, rfl⟩
        · -- the lecture is appended to the open chapter
          dsimp only
          intro hmem
          simp only [stateLecs] at hmem ⊢
          rcases List.mem_append.mp hmem with hfl | hss
          · obtain ⟨l, hlmem, hl⟩ := List.mem_flatten.mp hfl
            obtain ⟨a, ha, hal⟩ := List.mem_map.mp hlmem
            rcases List.mem_append.mp ha with ha' | hcur
            · exact Or.inl (List.mem_append.mpr (Or.inl (List.mem_flatten.mpr
                ⟨l, List.mem_map.mpr ⟨a, List.mem_append.mpr (Or.inl ha'), hal⟩, hl⟩)))
            · simp only [Option.toList_some, List.mem_singleton] at hcur
              subst hcur
              rw [← hal] at hl
              rcases List.mem_append.mp hl with hl' | hl'
              · exact Or.inl (List.mem_append.mpr (Or.inl (List.mem_flatten.mpr
                  ⟨ch.lectures,
                   List.mem_map.mpr ⟨ch, List.mem_append.mpr (Or.inr (by simp)), rfl⟩, hl'⟩)))
              · simp only [List.mem_singleton] at hl'
                subst hl'
                exact Or.inr ⟨hvid, rfl, rfl⟩
          · exact Or.inl (List.mem_append.mpr (Or.inr hss))
    · rw [if_neg hvid]
      exact fun hmem => Or.inl hmem

theorem foldl_stepItem_lecture_source :
    ∀ (items : List CurriculumItem) (st : BuildState) (lec : LectureOut),
    lec ∈ stateLecs (items.foldl stepItem st) →
    lec ∈ stateLecs st
    ∨ ∃ it ∈ items, isVideoLectureItem it = true ∧ lec.id = it.id ∧ lec.title = it.title := by
  intro items
  induction items with
  | nil => intro st lec h; exact Or.inl h
  | cons x t ih =>
    intro st lec h
    rcases ih (stepItem st x) lec h with h' | ⟨it, hit, hp⟩
    · rcases stepItem_lecture_source st x lec h' with h'' | hp
      · exact Or.inl h''
      · exact Or.inr ⟨x, by simp, hp⟩
    · exact Or.inr ⟨it, List.mem_cons_of_mem _ hit, hp⟩

theorem mem_insertDesc (y x : CurriculumItem) : ∀ (l : List CurriculumItem),
    y ∈ insertDesc x l → y = x ∨ y ∈ l := by
  intro l
  induction l with
  | nil => intro h; simp [insertDesc] at h; exact Or.inl h
  | cons z t ih =>
    intro h
    rw [insertDesc] at h
    by_cases hc : x.sort_order > z.sort_order
    · rw [if_pos hc] at h
      simpa using List.mem_cons.mp h
    · rw [if_neg hc] at h
      rcases List.mem_cons.mp h with h | h
      · exact Or.inr (by simp [h])
      · rcases ih h with h | h
        · exact Or.inl h
        · exact Or.inr (List.mem_cons_of_mem _ h)

theorem mem_sortFold (y : CurriculumItem) : ∀ (l acc : List CurriculumItem),
    y ∈ l.foldl (fun acc x => insertDesc x acc) acc → y ∈ acc ∨ y ∈ l := by
  intro l
  induction l with
  | nil => intro acc h; exact Or.inl h
  | cons x t ih =>
    intro acc h
    rcases ih (insertDesc x acc) h with h | h
    · rcases mem_insertDesc y x acc h with h | h
      · exact Or.inr (by simp [h])
      · exact Or.inl h
    · exact Or.inr (List.mem_cons_of_mem _ h)

theorem mem_of_mem_sort (y : CurriculumItem) (l : List CurriculumItem) :
    y ∈ sortBySortOrderDesc l → y ∈ l := by
  intro h
  rcases mem_sortFold y l [] h with h | h
  · simp at h
  · exact h

/-- The three-record scenario of the spec (chapter "Intro", video
lecture "Welcome", quiz "Quiz"). -/
def introRecord : CurriculumItem :=
  { cls := "chapter".data, id := 10, title := "Intro".data, created := [],
    sort_order := 3, asset := none }

def welcomeRecord : CurriculumItem :=
  { cls := "lecture".data, id := 11, title := "Welcome".data, created := [],
    sort_order := 2,
    asset := some { asset_type := some ("video".data), time_estimation := 120,
                    captions := none } }

def quizRecord : CurriculumItem :=
  { cls := "lecture".data, id := 12, title := "Quiz".data, created := [],
    sort_order := 1,
    asset := some { asset_type := some ("quiz".data), time_estimation := 0,
                    captions := none } }

def scenarioRecords : List CurriculumItem :=
  [introRecord, welcomeRecord, quizRecord]

/-- The structure the scenario is expected to resolve to. -/
def scenarioStructure : CourseStructure :=
  { chapters := [{ id := 10, title := "Intro".data, index := 1,
                   lectures := [{ id := 11, title := "Welcome".data, created := [],
                                  timeEstimation := 120, chapterIndex := some 1,
                                  lectureIndex := 1, captions := none }] }],
    lectures := [] }

/-- C6: every lecture of the resolved structure stems from a
`lecture`-class record whose asset type contains "video"; non-video
lecture records and other record classes never contribute a lecture
(their exclusion is just the silent `else` of the loop).  The
three-record scenario resolves to exactly one chapter "Intro"
(ordinal 1) holding exactly one lecture "Welcome" (ordinal 1), with
the quiz excluded. -/
theorem resolver_only_video_lectures :
    (∀ (results : List CurriculumItem) (lec : LectureOut),
      lec ∈ allLecturesOf (processCourseStructure results) →
      ∃ it ∈ results, it.cls = "lecture".data ∧ isVideoLectureItem it = true
        ∧ lec.id = it.id ∧ lec.title = it.title)
    ∧ processCourseStructure scenarioRecords = scenarioStructure := by
  constructor
  · intro results lec hmem
    have hmem' : lec ∈ stateLecs ((sortBySortOrderDesc results).foldl stepItem initBuildState) :=
      hmem
    rcases foldl_stepItem_lecture_source (sortBySortOrderDesc results) initBuildState lec hmem'
      with hinit | ⟨it, hit, hvid, hid, htitle⟩
    · simp [stateLecs, initBuildState] at hinit
    · refine ⟨it, mem_of_mem_sort it results hit, ?_, hvid, hid, htitle⟩
      have hcls : (it.cls == "lecture".data) = true := by
        rw [isVideoLectureItem] at hvid
        exact (Bool.and_eq_true _ _).mp hvid |>.1
      exact eq_of_beq hcls
  · decide

theorem resolver_only_video_lectures_witness :
    ∃ it ∈ scenarioRecords, it.cls = "lecture".data ∧ isVideoLectureItem it = true
      ∧ (11 : Nat) = it.id ∧ "Welcome".data = it.title :=
  resolver_only_video_lectures.1 scenarioRecords
    { id := 11, title := "Welcome".data, created := [], timeEstimation := 120,
      chapterIndex := some 1, lectureIndex := 1, captions := none }
    (by decide)

theorem resolver_ordinals_contiguous_witness :
    ((processCourseStructure scenarioRecords).chapters.map ChapterOut.index
      = List.range' 1 (processCourseStructure scenarioRecords).chapters.length)
    ∧ (∀ ch ∈ (processCourseStructure scenarioRecords).chapters,
        ch.lectures.map LectureOut.lectureIndex = List.range' 1 ch.lectures.length)
    ∧ ((processCourseStructure scenarioRecords).lectures.map LectureOut.lectureIndex
      = List.range' 1 (processCourseStructure scenarioRecords).lectures.length) :=
  resolver_ordinals_contiguous scenarioRecords

/-! ### Converter lemmas: timestamp normalization (C4) -/

theorem splitOnChar_not_mem (sep : Char) : ∀ (s : Str), sep ∉ s → splitOnChar sep s = [s] := by
  intro s
  induction s with
  | nil => intro _; rfl
  | cons c t ih =>
    intro h
    have hc : ¬(c = sep) := fun hc => h (by rw [hc]; exact List.mem_cons_self _ _)
    rw [splitOnChar, if_neg hc, ih (fun hm => h (List.mem_cons_of_mem _ hm))]

theorem splitOnChar_append (sep : Char) : ∀ (a b : Str), sep ∉ a →
    splitOnChar sep (a ++ sep :: b) = a :: splitOnChar sep b := by
  intro a
  induction a with
  | nil => intro b _; rw [List.nil_append, splitOnChar, if_pos rfl]
  | cons c t ih =>
    intro b h
    have hc : ¬(c = sep) := fun hc => h (by rw [hc]; exact List.mem_cons_self _ _)
    rw [List.cons_append, splitOnChar, if_neg hc,
      ih b (fun hm => h (List.mem_cons_of_mem _ hm))]

theorem splitOnChar_joinSep (sep : Char) : ∀ (comps : List Str), comps ≠ [] →
    (∀ c ∈ comps, sep ∉ c) → splitOnChar sep (joinSep sep comps) = comps := by
  intro comps
  induction comps with
  | nil => intro h _; exact absurd rfl h
  | cons s rest ih =>
    intro _ hmem
    cases rest with
    | nil => exact splitOnChar_not_mem sep s (hmem s (by simp))
    | cons s2 rest2 =>
      rw [joinSep, splitOnChar_append sep s _ (hmem s (by simp)),
        ih (by simp) (fun c hc => hmem c (List.mem_cons_of_mem _ hc))]

theorem not_mem_of_digits (c : Char) (s : Str) (hd : ∀ ch ∈ s, ch.isDigit = true)
    (hc : c.isDigit = false) : c ∉ s := by
  intro hm
  rw [hd c hm] at hc
  simp at hc

theorem not_mem_joinSep (x sep : Char) (hx : x ≠ sep) : ∀ (comps : List Str),
    (∀ c ∈ comps, x ∉ c) → x ∉ joinSep sep comps := by
  intro comps
  induction comps with
  | nil => intro _; simp [joinSep]
  | cons s rest ih =>
    intro hmem
    cases rest with
    | nil => exact hmem s (by simp)
    | cons s2 rest2 =>
      rw [joinSep]
      intro hm
      rcases List.mem_append.mp hm with hm' | hm'
      · exact hmem s (by simp) hm'
      · rcases List.mem_cons.mp hm' with hm'' | hm''
        · exact hx hm''
        · exact ih (fun c hc => hmem c (List.mem_cons_of_mem _ hc)) hm''

/-- The optional `.mmm` tail of a grammar timestamp. -/
def fracPart (fr : Option Str) : Str :=
  match fr with
  | some f => '.' :: f
  | none => []

/-- The fraction-splitting step of `normalizeTimestamp`: for an input
`main[.frac]` with no stray dot, the function reduces to two-padding
the colon parts of `main` and three-padding the fraction. -/
theorem normalizeTimestamp_splits (main : Str) (fr : Option Str) (hdot : '.' ∉ main)
    (hfr : ∀ f, fr = some f → '.' ∉ f ∧ f ≠ []) :
    normalizeTimestamp (main ++ fracPart fr) =
      joinSep ':' ((List.replicate (3 - (splitOnChar ':' main).length) ("00".data)
        ++ splitOnChar ':' main).map (padStart 2 '0'))
      ++ ',' :: padEnd 3 '0' (fr.getD ("000".data)) := by
  rcases fr with _ | f
  · rw [show fracPart none = [] from rfl, List.append_nil, normalizeTimestamp]
    dsimp only
    rw [splitOnChar_not_mem '.' main hdot]
    rfl
  · obtain ⟨h1, h2⟩ := hfr f rfl
    obtain ⟨fc, ft, rfl⟩ := List.exists_cons_of_ne_nil h2
    rw [show fracPart (some (fc :: ft)) = '.' :: fc :: ft from rfl, normalizeTimestamp]
    dsimp only
    rw [splitOnChar_append '.' main _ hdot, splitOnChar_not_mem '.' _ h1]
    rfl

theorem pad2_shape (s : Str) (h1 : s ≠ []) (h2 : s.length ≤ 2)
    (h3 : ∀ ch ∈ s, ch.isDigit = true) :
    ∃ d1 d2, padStart 2 '0' s = [d1, d2] ∧ d1.isDigit = true ∧ d2.isDigit = true := by
  rcases s with _ | ⟨a, _ | ⟨b, _ | ⟨c, t⟩⟩⟩
  · exact absurd rfl h1
  · exact ⟨'0', a, rfl, by decide, h3 a (by simp)⟩
  · exact ⟨a, b, rfl, h3 a (by simp), h3 b (by simp)⟩
  · simp at h2

theorem pad3_shape (s : Str) (h1 : s ≠ []) (h2 : s.length ≤ 3)
    (h3 : ∀ ch ∈ s, ch.isDigit = true) :
    ∃ d1 d2 d3, padEnd 3 '0' s = [d1, d2, d3]
      ∧ d1.isDigit = true ∧ d2.isDigit = true ∧ d3.isDigit = true := by
  rcases s with _ | ⟨a, _ | ⟨b, _ | ⟨c, _ | ⟨d, t⟩⟩⟩⟩
  · exact absurd rfl h1
  · exact ⟨a, '0', '0', rfl, h3 a (by simp), by decide, by decide⟩
  · exact ⟨a, b, '0', rfl, h3 a (by simp), h3 b (by simp), by decide⟩
  · exact ⟨a, b, c, rfl, h3 a (by simp), h3 b (by simp), h3 c (by simp)⟩
  · simp at h2

/-- The fixed output shape `HH:MM:SS,mmm`: twelve characters, colons at
positions 2 and 5, a comma at position 8, digits everywhere else. -/
def isSrtTimestamp (t : Str) : Bool :=
  match t with
  | [h1, h2, c1, m1, m2, c2, s1, s2, c3, f1, f2, f3] =>
    h1.isDigit && h2.isDigit && (c1 == ':') && m1.isDigit && m2.isDigit && (c2 == ':') &&
      s1.isDigit && s2.isDigit && (c3 == ',') && f1.isDigit && f2.isDigit && f3.isDigit
  | _ => false

/-- C4: on every timestamp of the grammar `[[HH:]MM:]SS[.mmm]` (one to
three colon-separated digit components of at most two digits, with an
optional nonempty fraction of at most three digits) `normalizeTimestamp`
left-pads the missing higher units with `00`, two-pads each unit,
right-pads the fraction (default `000`) to three digits, and the result
has the fixed `HH:MM:SS,mmm` shape; the scenario block
`"0:05.500 --> 0:08"` with text "Hi" converts to block index 1, header
`"00:00:05,500 --> 00:00:08,000"`, text "Hi". -/
theorem normalizeTimestamp_grammar :
    (∀ (comps : List Str) (fr : Option Str),
      comps ≠ [] → comps.length ≤ 3 →
      (∀ c ∈ comps, c ≠ [] ∧ c.length ≤ 2 ∧ ∀ ch ∈ c, ch.isDigit = true) →
      (∀ f, fr = some f → f ≠ [] ∧ f.length ≤ 3 ∧ ∀ ch ∈ f, ch.isDigit = true) →
      normalizeTimestamp (joinSep ':' comps ++ fracPart fr)
        = joinSep ':' ((List.replicate (3 - comps.length) ("00".data) ++ comps).map
            (padStart 2 '0')) ++ ',' :: padEnd 3 '0' (fr.getD ("000".data))
      ∧ isSrtTimestamp (normalizeTimestamp (joinSep ':' comps ++ fracPart fr)) = true)
    ∧ convertVttToSrt ("0:05.500 --> 0:08\nHi".data) =
        "1\n00:00:05,500 --> 00:00:08,000\nHi\n".data := by
  constructor
  · intro comps fr hne hlen hcomps hfr
    have hdig : ∀ c ∈ comps, ∀ ch ∈ c, ch.isDigit = true := fun c hc => (hcomps c hc).2.2
    have hcolon : ∀ c ∈ comps, ':' ∉ c :=
      fun c hc => not_mem_of_digits ':' c (hdig c hc) (by decide)
    have hdotc : ∀ c ∈ comps, '.' ∉ c :=
      fun c hc => not_mem_of_digits '.' c (hdig c hc) (by decide)
    have hdotm : '.' ∉ joinSep ':' comps := not_mem_joinSep '.' ':' (by decide) comps hdotc
    have hfr' : ∀ f, fr = some f → '.' ∉ f ∧ f ≠ [] := by
      intro f hf
      obtain ⟨hf1, _, hf3⟩ := hfr f hf
      exact ⟨not_mem_of_digits '.' f hf3 (by decide), hf1⟩
    have hsplit := normalizeTimestamp_splits (joinSep ':' comps) fr hdotm hfr'
    rw [splitOnChar_joinSep ':' comps hne hcolon] at hsplit
    refine ⟨hsplit, ?_⟩
    rw [hsplit]
    have hfrac : ∃ e1 e2 e3, padEnd 3 '0' (fr.getD ("000".data)) = [e1, e2, e3]
        ∧ e1.isDigit = true ∧ e2.isDigit = true ∧ e3.isDigit = true := by
      rcases fr with _ | f
      · exact ⟨'0', '0', '0', rfl, by decide, by decide, by decide⟩
      · obtain ⟨hf1, hf2, hf3⟩ := hfr f rfl
        exact pad3_shape f hf1 hf2 hf3
    obtain ⟨e1, e2, e3, hfe, he1, he2, he3⟩ := hfrac
    rw [hfe]
    rcases comps with _ | ⟨x, _ | ⟨y, _ | ⟨z, t⟩⟩⟩
    · exact absurd rfl hne
    · obtain ⟨x1, x2, hx, hx1, hx2⟩ :=
        pad2_shape x (hcomps x (by simp)).1 (hcomps x (by simp)).2.1 (hdig x (by simp))
      rw [show List.replicate (3 - ([x] : List Str).length) ("00".data) ++ [x]
          = ["00".data, "00".data, x] from rfl]
      simp only [List.map_cons, List.map_nil, hx]
      rw [show padStart 2 '0' ("00".data) = "00".data from rfl]
      simp [isSrtTimestamp, joinSep, hx1, hx2, he1, he2, he3]
    · obtain ⟨x1, x2, hx, hx1, hx2⟩ :=
        pad2_shape x (hcomps x (by simp)).1 (hcomps x (by simp)).2.1 (hdig x (by simp))
      obtain ⟨y1, y2, hy, hy1, hy2⟩ :=
        pad2_shape y (hcomps y (by simp)).1 (hcomps y (by simp)).2.1 (hdig y (by simp))
      rw [show List.replicate (3 - ([x, y] : List Str).length) ("00".data) ++ [x, y]
          = ["00".data, x, y] from rfl]
      simp only [List.map_cons, List.map_nil, hx, hy]
      rw [show padStart 2 '0' ("00".data) = "00".data from rfl]
      simp [isSrtTimestamp, joinSep, hx1, hx2, hy1, hy2, he1, he2, he3]
    · rcases t with _ | ⟨w, t2⟩
      · obtain ⟨x1, x2, hx, hx1, hx2⟩ :=
          pad2_shape x (hcomps x (by simp)).1 (hcomps x (by simp)).2.1 (hdig x (by simp))
        obtain ⟨y1, y2, hy, hy1, hy2⟩ :=
          pad2_shape y (hcomps y (by simp)).1 (hcomps y (by simp)).2.1 (hdig y (by simp))
        obtain ⟨z1, z2, hz, hz1, hz2⟩ :=
          pad2_shape z (hcomps z (by simp)).1 (hcomps z (by simp)).2.1 (hdig z (by simp))
        rw [show List.replicate (3 - ([x, y, z] : List Str).length) ("00".data) ++ [x, y, z]
            = [x, y, z] from rfl]
        simp only [List.map_cons, List.map_nil, hx, hy, hz]
        simp [isSrtTimestamp, joinSep, hx1, hx2, hy1, hy2, hz1, hz2, he1, he2, he3]
      · simp at hlen
  · decide

theorem normalizeTimestamp_grammar_witness :
    normalizeTimestamp (joinSep ':' ["0".data, "05".data] ++ fracPart (some ("500".data)))
      = joinSep ':' ((List.replicate (3 - (["0".data, "05".data] : List Str).length) ("00".data)
          ++ ["0".data, "05".data]).map (padStart 2 '0'))
        ++ ',' :: padEnd 3 '0' ((some ("500".data)).getD ("000".data))
    ∧ isSrtTimestamp (normalizeTimestamp (joinSep ':' ["0".data, "05".data]
        ++ fracPart (some ("500".data)))) = true :=
  normalizeTimestamp_grammar.1 ["0".data, "05".data] (some ("500".data))
    (by decide) (by decide) (by decide) (by decide)

/-! ### Converter lemmas: cue numbering (C2) -/

/-- A block the converter keeps: at least two lines after trimming
(src/index.js:343). -/
def wellFormedBlock (b : Str) : Bool :=
  decide (2 ≤ (splitOnChar '\n' (jsTrim b)).length)

/-- The cue indices the converter emits for a block list starting at
position `n`: position + 1 for each kept block, nothing for a dropped
one. -/
def keptIndicesFrom (n : Nat) : List Str → List Nat
  | [] => []
  | b :: t =>
    if wellFormedBlock b then (n + 1) :: keptIndicesFrom (n + 1) t
    else keptIndicesFrom (n + 1) t

theorem cue_indices_mapIdx : ∀ (bs : List Str) (n : Nat),
    ((mapIdxFrom blockToCue n bs).reduceOption).map SrtCue.idx = keptIndicesFrom n bs := by
  intro bs
  induction bs with
  | nil => intro n; rfl
  | cons b t ih =>
    intro n
    rw [mapIdxFrom, keptIndicesFrom]
    by_cases hw : wellFormedBlock b = true
    · have h2 : ¬((splitOnChar '\n' (jsTrim b)).length < 2) := by
        have := of_decide_eq_true hw
        omega
      rw [if_pos hw, blockToCue]
      dsimp only
      rw [if_neg h2, List.reduceOption_cons_of_some, List.map_cons, ih (n + 1)]
    · have h2 : (splitOnChar '\n' (jsTrim b)).length < 2 := by
        have := of_decide_eq_false (Bool.of_not_eq_true hw)
        omega
      rw [if_neg hw, blockToCue]
      dsimp only
      rw [if_pos h2, List.reduceOption_cons_of_none, ih (n + 1)]

theorem keptIndicesFrom_all_wf : ∀ (bs : List Str) (n : Nat),
    (∀ b ∈ bs, wellFormedBlock b = true) →
    keptIndicesFrom n bs = List.range' (n + 1) bs.length := by
  intro bs
  induction bs with
  | nil => intro n _; rfl
  | cons b t ih =>
    intro n hwf
    rw [keptIndicesFrom, if_pos (hwf b (by simp)),
      ih (n + 1) (fun b' hb' => hwf b' (List.mem_cons_of_mem _ hb'))]
    rfl

/-- A timed-text input whose first block is malformed (one line) and
whose second block is a valid cue. -/
def gappyVtt : Str :=
  "bad\n\n0:01 --> 0:02\nHi".data

/-- C2 counterexample: with a malformed first block the single emitted
cue carries index 2, so the emitted indices are not the contiguous
sequence 1..N (N = 1 here). -/
theorem cue_indices_counterexample :
    (cuesOf gappyVtt).map SrtCue.idx = [2]
    ∧ ¬((cuesOf gappyVtt).map SrtCue.idx
        = List.range' 1 ((cuesOf gappyVtt).length)) := by decide

/-- C2 (amended): each kept block's emitted cue index equals its
0-based position in the input block list plus one — a dropped malformed
block leaves a gap — and whenever every input block is well-formed the
emitted indices are exactly the contiguous sequence 1..N. -/
theorem cue_indices_positional (vtt : Str) :
    (cuesOf vtt).map SrtCue.idx = keptIndicesFrom 0 (vttBlocks vtt)
    ∧ ((∀ b ∈ vttBlocks vtt, wellFormedBlock b = true) →
      (cuesOf vtt).map SrtCue.idx = List.range' 1 (vttBlocks vtt).length) := by
  constructor
  · exact cue_indices_mapIdx (vttBlocks vtt) 0
  · intro hwf
    rw [cuesOf, cue_indices_mapIdx (vttBlocks vtt) 0, keptIndicesFrom_all_wf _ 0 hwf]

theorem cue_indices_positional_witness :
    (cuesOf ("0:01 --> 0:02\nHi".data)).map SrtCue.idx
      = List.range' 1 (vttBlocks ("0:01 --> 0:02\nHi".data)).length :=
  (cue_indices_positional ("0:01 --> 0:02\nHi".data)).2 (by decide)

/-! ### Per-lecture flow lemmas (C1, C7, C8, C9) -/

theorem findWorkingSelector_none (env : PageEnv) : ∀ (l : List Str),
    (∀ s ∈ l, ¬(env.buttonExists s = true ∧ env.panelVisibleAfterClick s = true)) →
    findWorkingSelector env l = none := by
  intro l
  induction l with
  | nil => intro _; rfl
  | cons s t ih =>
    intro h
    rw [findWorkingSelector]
    have hb : ¬((env.buttonExists s && env.panelVisibleAfterClick s) = true) := by
      intro hbb
      exact h s (by simp) ((Bool.and_eq_true _ _).mp hbb)
    rw [if_neg hb]
    exact ih (fun s' hs' => h s' (List.mem_cons_of_mem _ hs'))

theorem hasSub_append_right (needle : Str) : ∀ (a b : Str),
    hasSub needle b = true → hasSub needle (a ++ b) = true := by
  intro a
  induction a with
  | nil => intro b h; exact h
  | cons c t ih =>
    intro b h
    rw [List.cons_append, hasSub, ih b h]
    simp

theorem srt_suffix_txt_false (s : Str) :
    ((".srt".data).isSuffixOf (s ++ ".txt".data)) = false := by
  rw [List.isSuffixOf, List.reverse_append]
  have h1 : (".srt".data).reverse = ['t', 'r', 's', '.'] := by decide
  have h2 : (".txt".data).reverse = ['t', 'x', 't', '.'] := by decide
  rw [h1, h2]
  rfl

/-- C8: when navigation succeeds but no fallback selector both finds a
button and leaves the transcript panel visible, `processLecture` ends
in the `noTranscript` outcome writing exactly one file — the
placeholder transcript, which carries the explicit "No transcript
available" marker — and no `.srt` file is written even when subtitles
were requested. -/
theorem no_panel_writes_placeholder (env : PageEnv) (lecture : LectureOut)
    (chapter : Option ChapterOut) (downloadSrt : Bool)
    (hnav : env.navOk = true)
    (hno : ∀ s ∈ transcriptButtonSelectors,
      ¬(env.buttonExists s = true ∧ env.panelVisibleAfterClick s = true)) :
    processLecture env lecture chapter downloadSrt =
      ([⟨sanitizeFilename (rawFilename lecture chapter) ++ ".txt".data,
         placeholderContent (sanitizeFilename (rawFilename lecture chapter))⟩],
       LectureStatus.noTranscript)
    ∧ hasSub ("No transcript available".data)
        (placeholderContent (sanitizeFilename (rawFilename lecture chapter))) = true
    ∧ (processLecture env lecture chapter downloadSrt).1.filter
        (fun f => (".srt".data).isSuffixOf f.name) = [] := by
  have hfind := findWorkingSelector_none env transcriptButtonSelectors hno
  have hmain : processLecture env lecture chapter downloadSrt =
      ([⟨sanitizeFilename (rawFilename lecture chapter) ++ ".txt".data,
         placeholderContent (sanitizeFilename (rawFilename lecture chapter))⟩],
       LectureStatus.noTranscript) := by
    rw [processLecture, hnav, hfind]
    rfl
  refine ⟨hmain, ?_, ?_⟩
  · apply hasSub_append_right
    decide
  · rw [hmain, List.filter_cons]
    dsimp only
    rw [srt_suffix_txt_false]
    rfl

/-- C9: the sanitized filename never contains a character of the
invalid class (in particular no path separator), and it is a function
of exactly the (chapter ordinal, lecture ordinal, title) identity: two
lectures agreeing on those fields get the same filename whatever their
other fields are. -/
theorem filename_sanitized_deterministic :
    (∀ (lecture : LectureOut) (chapter : Option ChapterOut),
      ∀ c ∈ sanitizeFilename (rawFilename lecture chapter), isInvalidFilenameChar c = false)
    ∧ (∀ (l1 l2 : LectureOut) (c1 c2 : ChapterOut), c1.index = c2.index →
        l1.lectureIndex = l2.lectureIndex → l1.title = l2.title →
        sanitizeFilename (rawFilename l1 (some c1)) = sanitizeFilename (rawFilename l2 (some c2)))
    ∧ (∀ (l1 l2 : LectureOut), l1.lectureIndex = l2.lectureIndex → l1.title = l2.title →
        sanitizeFilename (rawFilename l1 none) = sanitizeFilename (rawFilename l2 none)) := by
  refine ⟨?_, ?_, ?_⟩
  · intro lecture chapter c hc
    rw [sanitizeFilename] at hc
    obtain ⟨x, _, rfl⟩ := List.mem_map.mp hc
    cases hxv : isInvalidFilenameChar x with
    | true => rw [if_pos rfl]; decide
    | false => rw [if_neg (by simp)]; exact hxv
  · intro l1 l2 c1 c2 hidx hlidx htitle
    rw [rawFilename, rawFilename, hidx, hlidx, htitle]
  · intro l1 l2 hlidx htitle
    rw [rawFilename, rawFilename, hlidx, htitle]

/-- Sample data for the filename witness: same (chapter ordinal,
lecture ordinal, title) identity, all other fields different. -/
def wLecA : LectureOut :=
  { id := 1, title := "A: B?".data, created := [], timeEstimation := 0,
    chapterIndex := some 3, lectureIndex := 2, captions := none }

def wLecB : LectureOut :=
  { id := 99, title := "A: B?".data, created := "later".data, timeEstimation := 7,
    chapterIndex := none, lectureIndex := 2, captions := some [] }

def wChapA : ChapterOut :=
  { id := 5, title := "Part".data, index := 3, lectures := [] }

def wChapB : ChapterOut :=
  { id := 6, title := "Other".data, index := 3, lectures := [wLecA] }

theorem filename_sanitized_deterministic_witness :
    isInvalidFilenameChar '3' = false
    ∧ sanitizeFilename (rawFilename wLecA (some wChapA))
      = sanitizeFilename (rawFilename wLecB (some wChapB)) :=
  ⟨filename_sanitized_deterministic.1 wLecA (some wChapA) '3' (by decide),
   filename_sanitized_deterministic.2.1 wLecA wLecB wChapA wChapB rfl rfl rfl⟩

/-- An abstract page on which the transcript panel opens at the first
selector but every panel read comes back empty. -/
def emptyPanelEnv : PageEnv :=
  { navOk := true
    buttonExists := fun _ => true
    panelVisibleAfterClick := fun _ => true
    panelTextRead := fun _ => [] }

/-- An abstract page on which no selector ever finds a button. -/
def noButtonEnv : PageEnv :=
  { navOk := true
    buttonExists := fun _ => false
    panelVisibleAfterClick := fun _ => false
    panelTextRead := fun _ => [] }

def plainLecture : LectureOut :=
  { id := 21, title := "Basics".data, created := [], timeEstimation := 60,
    chapterIndex := some 1, lectureIndex := 1, captions := none }

def plainChapter : ChapterOut :=
  { id := 20, title := "Part".data, index := 1, lectures := [] }

/-- A course structure resolving exactly one lecture. -/
def oneLectureCourse : CourseStructure :=
  { chapters := [{ plainChapter with lectures := [plainLecture] }]
    lectures := [] }

theorem no_panel_writes_placeholder_witness :
    processLecture noButtonEnv plainLecture (some plainChapter) true =
      ([⟨sanitizeFilename (rawFilename plainLecture (some plainChapter)) ++ ".txt".data,
         placeholderContent (sanitizeFilename (rawFilename plainLecture (some plainChapter)))⟩],
       LectureStatus.noTranscript) :=
  (no_panel_writes_placeholder noButtonEnv plainLecture (some plainChapter) true rfl
    (by intro s _ h; simp [noButtonEnv] at h)).1

/-- C1 (code bug): a lecture whose transcript panel opens but whose
panel text stays blank through all three reads produces NO output file
— `processLecture` returns at src/index.js:603-606 without writing a
placeholder — so a run over a course structure resolving exactly this
one lecture writes zero transcript files rather than one per lecture. -/
theorem empty_transcript_writes_no_file :
    processLecture emptyPanelEnv plainLecture (some plainChapter) false
      = ([], LectureStatus.noTranscript)
    ∧ runTranscriptFiles (fun _ => emptyPanelEnv) oneLectureCourse false 5 = []
    ∧ (allWorkItems oneLectureCourse).length = 1 := by decide

/-- An abstract page with a transcript and a matching caption track. -/
def captionedEnv : PageEnv :=
  { navOk := true
    buttonExists := fun _ => true
    panelVisibleAfterClick := fun _ => true
    panelTextRead := fun _ => "Hello world".data }

def captionedLecture : LectureOut :=
  { id := 31, title := "Welcome".data, created := [], timeEstimation := 60,
    chapterIndex := none, lectureIndex := 1,
    captions := some [{ locale_id := "en_US".data, url := some ("http://u".data) }] }

/-- C7 (code bug): with subtitles requested and a caption track present
(whatever its locale, even one equal to the configured preference), the
caption step terminates in the `errored` outcome — src/index.js:619
dereferences `preferredLanguage`, which `downloadTranscripts` never
passes to `processLecture`, raising a `ReferenceError` before any track
can be selected — so no `.srt` file is ever written; only the
transcript `.txt` appears. -/
theorem caption_step_always_throws :
    processLecture captionedEnv captionedLecture none true
      = ([⟨sanitizeFilename (rawFilename captionedLecture none) ++ ".txt".data,
           "# ".data ++ sanitizeFilename (rawFilename captionedLecture none) ++ "\n\n".data
             ++ "Hello world".data⟩],
         LectureStatus.errored)
    ∧ (processLecture captionedEnv captionedLecture none true).1.filter
        (fun f => (".srt".data).isSuffixOf f.name) = [] := by decide
